import Mathlib

/-!
Verification development for the minispdlog logging library (C99 header
`minispdlog.h`, with the C++ variant for the singleton accessor).  The
definitions below are a shallow embedding of the source: machine `int`
indices become `Nat` with explicit `% BUFFER_SIZE`, the byte ring becomes a
total function `Nat → Char`, fallible operations return `Except`, and the
effect of a log call (file write / buffer enqueue / nothing) is reified as
an inductive value.
-/

namespace Minispdlog

/-- `_LOGGER_STDERR` (file descriptor sentinel 2). -/
def LOGGER_STDERR : Int := 2

/-- `_LOGGER_BUFFER_SIZE` (capacity of the circular buffer). -/
def BUFFER_SIZE : Nat := 8192

/-- `_LOGGER_MAX_LOG_ENTRY` (cap on one formatted log entry). -/
def MAX_LOG_ENTRY : Nat := 1024

/-- The `LogLevel` enumeration of the source. -/
inductive LogLevel where
  | DEBUG
  | INFO
  | WARN
  | ERROR
  | CRITICAL
deriving DecidableEq, Repr

/-- Numeric value of a level, as in the C `enum` (`LOG_DEBUG = 0`, ...). -/
def LogLevel.toNat : LogLevel → Nat
  | .DEBUG => 0
  | .INFO => 1
  | .WARN => 2
  | .ERROR => 3
  | .CRITICAL => 4

/-- `logger_level_to_string` from the source. -/
def logger_level_to_string : LogLevel → List Char
  | .DEBUG => "DEBUG".data
  | .INFO => "INFO".data
  | .WARN => "WARN".data
  | .ERROR => "ERROR".data
  | .CRITICAL => "CRITICAL".data

/-- The `LoggerCircularBuffer` struct: byte ring plus bookkeeping.  The
mutex and condition variable are synchronization primitives with no data
content; the condition-variable signal emitted by `buffer_write` is
returned explicitly instead. -/
structure LoggerCircularBuffer where
  buffer : Nat → Char
  head : Nat
  tail : Nat
  count : Nat
  running : Bool

/-- One iteration of the copy loop in `buffer_write`: store one byte at
`head`, advance `head` modulo the capacity, increment `count`. -/
def bufPush (buf : LoggerCircularBuffer) (c : Char) : LoggerCircularBuffer :=
  { buf with
    buffer := fun i => if i = buf.head then c else buf.buffer i
    head := (buf.head + 1) % BUFFER_SIZE
    count := buf.count + 1 }

/-- The copy loop of `buffer_write` (`for (i = 0; i < len && count < BUFFER_SIZE; i++)`),
returning the updated buffer and the number of bytes written. -/
def buffer_write_loop : LoggerCircularBuffer → List Char → LoggerCircularBuffer × Nat
  | buf, [] => (buf, 0)
  | buf, c :: rest =>
    if buf.count < BUFFER_SIZE then
      let r := buffer_write_loop (bufPush buf c) rest
      (r.1, r.2 + 1)
    else (buf, 0)

/-- `buffer_write`: copy as many input bytes as fit, return the count of
bytes written, and signal the condition variable (the `Bool`) iff at least
one byte was written. -/
def buffer_write (buf : LoggerCircularBuffer) (data : List Char) :
    LoggerCircularBuffer × Nat × Bool :=
  let r := buffer_write_loop buf data
  (r.1, r.2, decide (0 < r.2))

/-- One iteration of the extraction loop in `writer_thread_func`: read the
byte at `tail`, advance `tail` modulo the capacity, decrement `count`. -/
def bufPop (buf : LoggerCircularBuffer) : LoggerCircularBuffer :=
  { buf with tail := (buf.tail + 1) % BUFFER_SIZE, count := buf.count - 1 }

/-- The extraction loop of `writer_thread_func`
(`while (count > 0 && bytes_to_write < MAX_LOG_ENTRY - 1)`), accumulating
the extracted bytes in `acc` and breaking after copying a newline. -/
def drain_loop (buf : LoggerCircularBuffer) (acc : List Char) :
    LoggerCircularBuffer × List Char :=
  if _h : 0 < buf.count ∧ acc.length < MAX_LOG_ENTRY - 1 then
    let c := buf.buffer buf.tail
    if c = '\n' then (bufPop buf, acc ++ [c])
    else drain_loop (bufPop buf) (acc ++ [c])
  else (buf, acc)
termination_by buf.count
decreasing_by simp only [bufPop]; omega

/-- A single drain step of the Writer Thread: the extraction loop started
with an empty scratch buffer. -/
def drain_step (buf : LoggerCircularBuffer) : LoggerCircularBuffer × List Char :=
  drain_loop buf []

/-- Observable outcome of one pass through the Writer Thread's outer loop,
taken at the moment the condition-variable wait would be (re)evaluated:
the thread keeps waiting while `count == 0 && running`; once released it
breaks out of the loop if `running` is false, and otherwise extracts one
chunk. -/
inductive WriterObs where
  | waiting
  | exited
  | drained (buf : LoggerCircularBuffer) (out : List Char)

/-- One observable iteration of `writer_thread_func`'s outer loop. -/
def writer_iteration (buf : LoggerCircularBuffer) : WriterObs :=
  if buf.count = 0 ∧ buf.running = true then .waiting
  else if buf.running = true then
    let r := drain_step buf
    .drained r.1 r.2
  else .exited

/-- The logical byte content of the ring, read from `tail` for `count`
positions (indices taken modulo the capacity). -/
def bufContents (buf : LoggerCircularBuffer) : List Char :=
  (List.range buf.count).map fun i => buf.buffer ((buf.tail + i) % BUFFER_SIZE)

/-- The drain-to-empty phase of `logger_shutdown_async`: the shutdown poll
loop sleeps while `count > 0`, during which the still-running Writer
Thread performs drain steps; modelled sequentially with fuel (each drain
step removes at least one byte, so `buf.count` steps always empty the
buffer; see the fuel-sufficiency lemma). -/
def drainAllFuel : Nat → LoggerCircularBuffer → LoggerCircularBuffer × List Char
  | 0, buf => (buf, [])
  | Nat.succ n, buf =>
    if 0 < buf.count then
      let r := drain_step buf
      let r2 := drainAllFuel n r.1
      (r2.1, r.2 ++ r2.2)
    else (buf, [])

/-- `logger_shutdown_async`: poll until `count == 0` (the Writer Thread
draining meanwhile), and only then clear `running` (the stop signal and
join follow).  Returns the final buffer state and the concatenation of
everything the Writer Thread wrote to the file during the drain. -/
def logger_shutdown_async (buf : LoggerCircularBuffer) :
    LoggerCircularBuffer × List Char :=
  let r := drainAllFuel buf.count buf
  ({ r.1 with running := false }, r.2)

/-- `logger_init_async`: reset the ring bookkeeping to empty and set
`running` (the stored bytes themselves are not cleared). -/
def logger_init_async (buf : LoggerCircularBuffer) : LoggerCircularBuffer :=
  { buf with head := 0, tail := 0, count := 0, running := true }

/-- The `Logger` struct (file descriptor, floor, mode flag, ring).  The
`sync_mutex` and thread handle carry no data content. -/
structure Logger where
  file : Int
  min_level : LogLevel
  async_mode : Bool
  circ_buf : LoggerCircularBuffer

/-- The zero-initialized global `static Logger logger;` before any call to
`logger_init`: every field is zero, so the file descriptor is 0 (not the
stderr sentinel 2), the floor is `LOG_DEBUG` (= 0) and async mode is
off. -/
def logger_zero : Logger :=
  { file := 0
    min_level := .DEBUG
    async_mode := false
    circ_buf := { buffer := fun _ => Char.ofNat 0, head := 0, tail := 0,
                  count := 0, running := false } }

/-- The state established by `logger_init_defaults`: stderr sink, `DEBUG`
floor, synchronous mode. -/
def logger_init_defaults : Logger :=
  { logger_zero with file := LOGGER_STDERR }

/-- `logger_format_entry`: `snprintf(buffer, MAX_LOG_ENTRY, "%s [%s] %s\n", ...)`.
`snprintf` stores at most `MAX_LOG_ENTRY - 1` characters (truncating) but
returns the length the full entry would have had; the pair is (stored
characters, returned length).  The timestamp is an input (wall-clock). -/
def logger_format_entry (timestamp : List Char) (level : LogLevel)
    (message : List Char) : List Char × Nat :=
  let full := timestamp ++ " [".data ++ logger_level_to_string level ++
    "] ".data ++ message ++ ['\n']
  (full.take (MAX_LOG_ENTRY - 1), full.length)

/-- The externally visible effect of one `logger_write_log` call: nothing,
a direct file write of an entry to a file descriptor, or an enqueue of an
entry into the circular buffer. -/
inductive LogEffect where
  | none
  | fileWrite (fd : Int) (entry : List Char)
  | enqueue (entry : List Char)

/-- The entry carried by an effect, if any. -/
def effectEntry : LogEffect → Option (List Char)
  | .none => Option.none
  | .fileWrite _ e => some e
  | .enqueue e => some e

/-- `logger_write_log`: drop if `level < min_level`; format; drop if the
formatted length is non-positive or at least `MAX_LOG_ENTRY`; otherwise
enqueue (async) or write to the file under the sync mutex. -/
def logger_write_log (lg : Logger) (timestamp : List Char) (level : LogLevel)
    (message : List Char) : Logger × LogEffect :=
  if level.toNat < lg.min_level.toNat then (lg, .none)
  else
    let fe := logger_format_entry timestamp level message
    if fe.2 = 0 ∨ MAX_LOG_ENTRY ≤ fe.2 then (lg, .none)
    else if lg.async_mode then
      let r := buffer_write lg.circ_buf fe.1
      ({ lg with circ_buf := r.1 }, .enqueue fe.1)
    else (lg, .fileWrite lg.file fe.1)

/-- `logger_deinit`: shut down async mode (drain, stop, join) when active,
close and reset the file to the stderr sentinel when it is a real file,
and clear the async flag.  Returns the new state and the bytes the Writer
Thread wrote during the shutdown drain. -/
def logger_deinit (lg : Logger) : Logger × List Char :=
  let r := if lg.async_mode then logger_shutdown_async lg.circ_buf
           else (lg.circ_buf, [])
  ({ lg with
      circ_buf := r.1
      file := if LOGGER_STDERR < lg.file then LOGGER_STDERR else lg.file
      async_mode := false }, r.2)

/-- The singleton bookkeeping of the C++ `LoggerManager` (`LoggerInstance`):
whether `initialize` has run and whether the `unique_ptr` holds a logger. -/
structure LoggerInstance where
  initialized : Bool
  hasLogger : Bool

/-- `LoggerManager::get` (C++ variant): throws when the singleton was not
initialized, otherwise yields the instance (modelled as `Unit`). -/
def LoggerManager_get (inst : LoggerInstance) : Except String Unit :=
  if inst.initialized = false ∨ inst.hasLogger = false then
    Except.error "Logger not initialized. Call initialize() first."
  else Except.ok ()

/-- The zero/uninitialized singleton state (`initialized = false`, empty
`unique_ptr`). -/
def LoggerInstance_uninit : LoggerInstance :=
  { initialized := false, hasLogger := false }

/-- Sequence of `buffer_write` calls; returns the final buffer and the
concatenation, in call order, of the byte sequences each call accepted. -/
def enqueueAll : LoggerCircularBuffer → List (List Char) →
    LoggerCircularBuffer × List Char
  | buf, [] => (buf, [])
  | buf, m :: ms =>
    let r := buffer_write buf m
    let r2 := enqueueAll r.1 ms
    (r2.1, m.take r.2.1 ++ r2.2)

/-- Sample wall-clock timestamp string (26 characters), of the shape
produced by `logger_set_timestamp`. -/
def tsW : List Char := "2025-01-01 00:00:00.000000".data

/-- An empty, running circular buffer (concrete sample state). -/
def bufW : LoggerCircularBuffer :=
  { buffer := fun _ => '.', head := 0, tail := 0, count := 0, running := true }

/-- A running buffer holding the three bytes of one line. -/
def bufS : LoggerCircularBuffer :=
  { buffer := fun i =>
      if i = 0 then 'h' else if i = 1 then 'i' else if i = 2 then '\n' else '.'
    head := 3, tail := 0, count := 3, running := true }

/-- A stopped buffer (`running = false`) with one undrained byte. -/
def bufStopped : LoggerCircularBuffer :=
  { buffer := fun _ => 'x', head := 1, tail := 0, count := 1, running := false }

/-- A logger in asynchronous mode with a real file descriptor. -/
def lgAsync : Logger :=
  { file := 5, min_level := .WARN, async_mode := true, circ_buf := bufW }

/-- A logger in synchronous mode with a real file descriptor. -/
def lgSync : Logger :=
  { file := 5, min_level := .ERROR, async_mode := false, circ_buf := bufW }

/-- The ring-index invariant of the circular buffer. -/
def bufInvariant (buf : LoggerCircularBuffer) : Prop :=
  buf.count ≤ BUFFER_SIZE ∧ buf.head < BUFFER_SIZE ∧ buf.tail < BUFFER_SIZE

/-- Well-formedness of a reachable buffer state: the invariant together
with `head` sitting exactly `count` positions (modulo the capacity) past
`tail`. -/
def bufWF (buf : LoggerCircularBuffer) : Prop :=
  buf.count ≤ BUFFER_SIZE ∧ buf.tail < BUFFER_SIZE ∧
    buf.head = (buf.tail + buf.count) % BUFFER_SIZE

/-! ### Helper lemmas about ring indexing -/

theorem bs_pos : 0 < BUFFER_SIZE := by decide

theorem mod_bs_lt (a : Nat) : a % BUFFER_SIZE < BUFFER_SIZE :=
  Nat.mod_lt _ bs_pos

/-- Ring positions `(t + i) % BUFFER_SIZE` are distinct for offsets below
the capacity. -/
theorem mod_shift_inj {t i j : Nat} (hi : i < BUFFER_SIZE) (hj : j < BUFFER_SIZE)
    (h : (t + i) % BUFFER_SIZE = (t + j) % BUFFER_SIZE) : i = j := by
  have h2 : i % BUFFER_SIZE = j % BUFFER_SIZE := Nat.ModEq.add_left_cancel' t h
  rwa [Nat.mod_eq_of_lt hi, Nat.mod_eq_of_lt hj] at h2

theorem mod_head_step (h k : Nat) :
    ((h + 1) % BUFFER_SIZE + k) % BUFFER_SIZE = (h + (k + 1)) % BUFFER_SIZE := by
  rw [Nat.mod_add_mod]
  congr 1
  omega

/-- Popping one byte exposes the ring content as head byte plus rest. -/
theorem bufContents_pop (buf : LoggerCircularBuffer) (ht : buf.tail < BUFFER_SIZE)
    (hc : 0 < buf.count) :
    bufContents buf = buf.buffer buf.tail :: bufContents (bufPop buf) := by
  obtain ⟨n, hn⟩ : ∃ n, buf.count = n + 1 := ⟨buf.count - 1, by omega⟩
  simp only [bufContents, bufPop, hn, Nat.add_sub_cancel]
  rw [List.range_succ_eq_map, List.map_cons, List.map_map]
  refine congrArg₂ List.cons ?_ (List.map_congr_left ?_)
  · rw [Nat.add_zero, Nat.mod_eq_of_lt ht]
  · intro i _
    simp only [Function.comp_apply]
    rw [mod_head_step]

/-- Pushing one byte appends it to the ring content. -/
theorem bufContents_push (buf : LoggerCircularBuffer) (c : Char)
    (hwf : bufWF buf) (hlt : buf.count < BUFFER_SIZE) :
    bufContents (bufPush buf c) = bufContents buf ++ [c] := by
  obtain ⟨hc, ht, hh⟩ := hwf
  simp only [bufContents, bufPush]
  rw [List.range_succ, List.map_append, List.map_singleton]
  refine congrArg₂ List.append (List.map_congr_left ?_) ?_
  · intro i hi
    have hi' : i < buf.count := List.mem_range.mp hi
    have hne : (buf.tail + i) % BUFFER_SIZE ≠ buf.head := by
      rw [hh]
      intro hcontra
      have := mod_shift_inj (t := buf.tail) (by omega) (by omega) hcontra
      omega
    rw [if_neg hne]
  · rw [if_pos hh.symm]
theorem bufPush_count (buf : LoggerCircularBuffer) (c : Char) :
    (bufPush buf c).count = buf.count + 1 := rfl

theorem bufPush_head (buf : LoggerCircularBuffer) (c : Char) :
    (bufPush buf c).head = (buf.head + 1) % BUFFER_SIZE := rfl

theorem bufPush_tail (buf : LoggerCircularBuffer) (c : Char) :
    (bufPush buf c).tail = buf.tail := rfl

theorem bufPush_running (buf : LoggerCircularBuffer) (c : Char) :
    (bufPush buf c).running = buf.running := rfl

theorem bufPush_buffer_self (buf : LoggerCircularBuffer) (c : Char) :
    (bufPush buf c).buffer buf.head = c := by
  simp [bufPush]

theorem bufPush_buffer_ne (buf : LoggerCircularBuffer) (c : Char) {i : Nat}
    (h : i ≠ buf.head) : (bufPush buf c).buffer i = buf.buffer i := by
  simp only [bufPush]
  rw [if_neg h]

/-- Full characterisation of the copy loop of `buffer_write`: number of
bytes written, bookkeeping updates, the bytes landing in the ring starting
at `head`, and a frame condition for untouched ring cells. -/
theorem buffer_write_loop_spec (data : List Char) :
    ∀ buf : LoggerCircularBuffer, buf.count ≤ BUFFER_SIZE → buf.head < BUFFER_SIZE →
    (buffer_write_loop buf data).2 = min data.length (BUFFER_SIZE - buf.count) ∧
    (buffer_write_loop buf data).1.count = buf.count + (buffer_write_loop buf data).2 ∧
    (buffer_write_loop buf data).1.head =
      (buf.head + (buffer_write_loop buf data).2) % BUFFER_SIZE ∧
    (buffer_write_loop buf data).1.tail = buf.tail ∧
    (buffer_write_loop buf data).1.running = buf.running ∧
    (∀ j, j < (buffer_write_loop buf data).2 →
      (buffer_write_loop buf data).1.buffer ((buf.head + j) % BUFFER_SIZE) =
        data.getD j 'x') ∧
    (∀ i, (∀ j, j < (buffer_write_loop buf data).2 → i ≠ (buf.head + j) % BUFFER_SIZE) →
      (buffer_write_loop buf data).1.buffer i = buf.buffer i) := by
  induction data with
  | nil =>
    intro buf hc hh
    refine ⟨?_, ?_, ?_, rfl, rfl, ?_, ?_⟩
    · show 0 = min (List.length []) (BUFFER_SIZE - buf.count)
      simp
    · show buf.count = buf.count + 0
      omega
    · show buf.head = (buf.head + 0) % BUFFER_SIZE
      rw [Nat.add_zero, Nat.mod_eq_of_lt hh]
    · intro j hj
      exact absurd hj (Nat.not_lt_zero j)
    · intro i _
      rfl
  | cons c rest ih =>
    intro buf hc hh
    by_cases hfull : buf.count < BUFFER_SIZE
    · have hc1 : (bufPush buf c).count ≤ BUFFER_SIZE := by
        rw [bufPush_count]
        omega
      have hh1 : (bufPush buf c).head < BUFFER_SIZE := by
        rw [bufPush_head]
        exact mod_bs_lt _
      obtain ⟨ihw, ihcount, ihhead, ihtail, ihrun, ihcontent, ihframe⟩ :=
        ih (bufPush buf c) hc1 hh1
      rw [bufPush_count] at ihw
      have heq : buffer_write_loop buf (c :: rest) =
          ((buffer_write_loop (bufPush buf c) rest).1,
           (buffer_write_loop (bufPush buf c) rest).2 + 1) := by
        simp only [buffer_write_loop, if_pos hfull]
      rw [heq]
      dsimp only
      refine ⟨?_, ?_, ?_, ?_, ?_, ?_, ?_⟩
      · rw [List.length_cons]
        omega
      · rw [ihcount, bufPush_count]
        omega
      · rw [ihhead, bufPush_head, mod_head_step]
      · rw [ihtail, bufPush_tail]
      · rw [ihrun, bufPush_running]
      · intro j hj
        match j with
        | 0 =>
          rw [Nat.add_zero, Nat.mod_eq_of_lt hh, List.getD_cons_zero]
          have hside : ∀ j', j' < (buffer_write_loop (bufPush buf c) rest).2 →
              buf.head ≠ ((bufPush buf c).head + j') % BUFFER_SIZE := by
            intro j' hj'
            rw [bufPush_head, mod_head_step]
            intro hcontra
            have h0 : (buf.head + 0) % BUFFER_SIZE =
                (buf.head + (j' + 1)) % BUFFER_SIZE := by
              rw [Nat.add_zero, Nat.mod_eq_of_lt hh]
              exact hcontra
            have := mod_shift_inj (t := buf.head) (by omega) (by omega) h0
            omega
          rw [ihframe buf.head hside]
          exact bufPush_buffer_self buf c
        | j'' + 1 =>
          rw [← mod_head_step buf.head j'', ← bufPush_head buf c,
            ihcontent j'' (by omega), List.getD_cons_succ]
      · intro i hi
        have h1 : ∀ j', j' < (buffer_write_loop (bufPush buf c) rest).2 →
            i ≠ ((bufPush buf c).head + j') % BUFFER_SIZE := by
          intro j' hj'
          rw [bufPush_head, mod_head_step]
          exact hi (j' + 1) (by omega)
        rw [ihframe i h1]
        refine bufPush_buffer_ne buf c ?_
        have h0 := hi 0 (by omega)
        rwa [Nat.add_zero, Nat.mod_eq_of_lt hh] at h0
    · have heq : buffer_write_loop buf (c :: rest) = (buf, 0) := by
        simp only [buffer_write_loop, if_neg hfull]
      rw [heq]
      dsimp only
      refine ⟨?_, by omega, ?_, rfl, rfl, ?_, ?_⟩
      · rw [List.length_cons]
        omega
      · rw [Nat.add_zero, Nat.mod_eq_of_lt hh]
      · intro j hj
        exact absurd hj (Nat.not_lt_zero j)
      · intro i _
        rfl

theorem drain_loop_eq_step (buf : LoggerCircularBuffer) (acc : List Char)
    (h : 0 < buf.count ∧ acc.length < MAX_LOG_ENTRY - 1) :
    drain_loop buf acc =
      if buf.buffer buf.tail = '\n' then (bufPop buf, acc ++ [buf.buffer buf.tail])
      else drain_loop (bufPop buf) (acc ++ [buf.buffer buf.tail]) := by
  rw [drain_loop]
  simp only [dif_pos h]

theorem drain_loop_eq_exit (buf : LoggerCircularBuffer) (acc : List Char)
    (h : ¬(0 < buf.count ∧ acc.length < MAX_LOG_ENTRY - 1)) :
    drain_loop buf acc = (buf, acc) := by
  rw [drain_loop]
  simp only [dif_neg h]

theorem bufPop_count (buf : LoggerCircularBuffer) :
    (bufPop buf).count = buf.count - 1 := rfl

theorem bufPop_tail (buf : LoggerCircularBuffer) :
    (bufPop buf).tail = (buf.tail + 1) % BUFFER_SIZE := rfl

/-- Full characterisation of the extraction loop of `writer_thread_func`:
it removes some number `k` of bytes from the front of the ring content,
appends exactly those bytes to the scratch accumulator, advances `tail`
modulo the capacity and decrements `count` accordingly, makes progress on
a non-empty buffer, respects the `MAX_LOG_ENTRY - 1` cap, copies a newline
only as the final byte, and stops early only at the cap or a newline. -/
theorem drain_loop_spec (buf : LoggerCircularBuffer) (acc : List Char) :
    buf.tail < BUFFER_SIZE →
    ∃ k,
      k ≤ buf.count ∧
      (0 < buf.count → acc.length < MAX_LOG_ENTRY - 1 → 0 < k) ∧
      (drain_loop buf acc).2 = acc ++ (bufContents buf).take k ∧
      (drain_loop buf acc).1.count = buf.count - k ∧
      (drain_loop buf acc).1.tail = (buf.tail + k) % BUFFER_SIZE ∧
      (drain_loop buf acc).1.head = buf.head ∧
      (drain_loop buf acc).1.running = buf.running ∧
      bufContents (drain_loop buf acc).1 = (bufContents buf).drop k ∧
      acc.length + k ≤ max acc.length (MAX_LOG_ENTRY - 1) ∧
      ((∀ a ∈ acc, a ≠ '\n') → ∀ a ∈ (drain_loop buf acc).2.dropLast, a ≠ '\n') ∧
      (0 < (drain_loop buf acc).1.count →
        MAX_LOG_ENTRY - 1 ≤ acc.length + k ∨
          (drain_loop buf acc).2.getLast? = some '\n') := by
  induction buf, acc using drain_loop.induct with
  | case1 buf acc h _c hc =>
    intro ht
    have hnl : buf.buffer buf.tail = '\n' := hc
    have heq : drain_loop buf acc = (bufPop buf, acc ++ [buf.buffer buf.tail]) := by
      rw [drain_loop_eq_step buf acc h, if_pos hnl]
    have hpop := bufContents_pop buf ht h.1
    refine ⟨1, h.1, fun _ _ => Nat.one_pos, ?_, ?_, ?_, ?_, ?_, ?_, ?_, ?_, ?_⟩
    · rw [heq, hpop]
      dsimp only
      rw [List.take_succ_cons, List.take_zero]
    · rw [heq]
      rfl
    · rw [heq]
      rfl
    · rw [heq]
      rfl
    · rw [heq]
      rfl
    · rw [heq]
      dsimp only
      rw [hpop, List.drop_succ_cons, List.drop_zero]
    · have := h.2
      omega
    · intro hacc a ha
      rw [heq] at ha
      dsimp only at ha
      rw [List.dropLast_concat] at ha
      exact hacc a ha
    · intro _
      right
      rw [heq]
      dsimp only
      rw [List.getLast?_concat, hnl]
  | case2 buf acc h _c hc ih =>
    intro ht
    have hnl : ¬(buf.buffer buf.tail = '\n') := hc
    have ht1 : (bufPop buf).tail < BUFFER_SIZE := mod_bs_lt _
    obtain ⟨k', hk'le, _, hout, hcount, htail, hhead, hrun, hcont, hcap, hnln, hstop⟩ :=
      ih ht1
    have heq : drain_loop buf acc =
        drain_loop (bufPop buf) (acc ++ [buf.buffer buf.tail]) := by
      rw [drain_loop_eq_step buf acc h, if_neg hnl]
    have hpop := bufContents_pop buf ht h.1
    rw [bufPop_count] at hk'le hcount
    have hlen : (acc ++ [buf.buffer buf.tail]).length = acc.length + 1 := by
      simp
    refine ⟨k' + 1, by omega, fun _ _ => by omega, ?_, ?_, ?_, ?_, ?_, ?_, ?_, ?_, ?_⟩
    · rw [heq, hout, hpop, List.take_succ_cons, List.append_assoc,
        List.singleton_append]
    · rw [heq, hcount]
      omega
    · rw [heq, htail, bufPop_tail, mod_head_step]
    · rw [heq, hhead]
      rfl
    · rw [heq, hrun]
      rfl
    · rw [heq, hcont, hpop, List.drop_succ_cons]
    · rw [hlen] at hcap
      have := h.2
      omega
    · intro hacc
      rw [heq]
      refine hnln ?_
      intro a ha
      rcases List.mem_append.mp ha with hz | hz
      · exact hacc a hz
      · rw [List.mem_singleton] at hz
        rw [hz]
        exact hnl
    · intro hcnt
      rw [heq] at hcnt ⊢
      rcases hstop hcnt with hl | hr
      · left
        rw [hlen] at hl
        omega
      · right
        exact hr
  | case3 buf acc h =>
    intro ht
    have heq := drain_loop_eq_exit buf acc h
    refine ⟨0, Nat.zero_le _, ?_, ?_, ?_, ?_, ?_, ?_, ?_, ?_, ?_, ?_⟩
    · intro h1 h2
      exact absurd ⟨h1, h2⟩ h
    · rw [heq, List.take_zero, List.append_nil]
    · rw [heq]
      dsimp only
      omega
    · rw [heq]
      dsimp only
      rw [Nat.add_zero, Nat.mod_eq_of_lt ht]
    · rw [heq]
    · rw [heq]
    · rw [heq]
      dsimp only
      rw [List.drop_zero]
    · omega
    · intro hacc a ha
      rw [heq] at ha
      dsimp only at ha
      rw [List.dropLast_eq_take] at ha
      exact hacc a (List.take_subset _ _ ha)
    · intro hcnt
      left
      rw [heq] at hcnt
      dsimp only at hcnt
      omega

theorem buffer_write_fst (buf : LoggerCircularBuffer) (data : List Char) :
    (buffer_write buf data).1 = (buffer_write_loop buf data).1 := rfl

theorem buffer_write_written (buf : LoggerCircularBuffer) (data : List Char) :
    (buffer_write buf data).2.1 = (buffer_write_loop buf data).2 := rfl

/-- `buffer_write` preserves well-formedness and appends exactly the
accepted bytes to the ring content. -/
theorem buffer_write_wf (buf : LoggerCircularBuffer) (data : List Char)
    (hwf : bufWF buf) :
    bufWF (buffer_write buf data).1 ∧
    bufContents (buffer_write buf data).1 =
      bufContents buf ++ data.take (buffer_write buf data).2.1 := by
  obtain ⟨hc, ht, hh⟩ := hwf
  have hhlt : buf.head < BUFFER_SIZE := by
    rw [hh]
    exact mod_bs_lt _
  obtain ⟨hw, hcount, hhead, htail, _, hcontent, hframe⟩ :=
    buffer_write_loop_spec data buf hc hhlt
  rw [buffer_write_fst, buffer_write_written]
  have hwle : (buffer_write_loop buf data).2 ≤ BUFFER_SIZE - buf.count := by
    omega
  have hwdata : (buffer_write_loop buf data).2 ≤ data.length := by
    omega
  constructor
  · refine ⟨by omega, by rw [htail]; exact ht, ?_⟩
    rw [hcount, htail, hhead, hh, Nat.mod_add_mod, Nat.add_assoc]
  · have htake : data.take (buffer_write_loop buf data).2 =
        (List.range (buffer_write_loop buf data).2).map (fun j => data.getD j 'x') := by
      apply List.ext_getElem
      · simp only [List.length_take, List.length_map, List.length_range]
        omega
      · intro i h1 h2
        simp only [List.getElem_take, List.getElem_map, List.getElem_range]
        rw [List.getD_eq_getElem]
    rw [bufContents, bufContents, hcount, htail, List.range_add, List.map_append,
      List.map_map, htake]
    refine congrArg₂ List.append (List.map_congr_left ?_) (List.map_congr_left ?_)
    · intro i hi
      have hi' : i < buf.count := List.mem_range.mp hi
      refine hframe _ ?_
      intro j hj hcontra
      rw [hh, Nat.mod_add_mod, Nat.add_assoc] at hcontra
      have := mod_shift_inj (t := buf.tail) (i := i) (j := buf.count + j)
        (by omega) (by omega) hcontra
      omega
    · intro j hj
      have hj' : j < (buffer_write_loop buf data).2 := List.mem_range.mp hj
      have harg : (buf.tail + (buf.count + j)) % BUFFER_SIZE =
          (buf.head + j) % BUFFER_SIZE := by
        rw [hh, Nat.mod_add_mod, Nat.add_assoc]
      simp only [Function.comp_apply]
      rw [harg, hcontent j hj']

theorem drain_step_def (buf : LoggerCircularBuffer) :
    drain_step buf = drain_loop buf [] := rfl

/-- Specialisation of the extraction-loop characterisation to a drain step
(empty scratch accumulator). -/
theorem drain_step_spec (buf : LoggerCircularBuffer) (ht : buf.tail < BUFFER_SIZE) :
    ∃ k,
      k ≤ buf.count ∧
      (0 < buf.count → 0 < k) ∧
      (drain_step buf).2 = (bufContents buf).take k ∧
      (drain_step buf).1.count = buf.count - k ∧
      (drain_step buf).1.tail = (buf.tail + k) % BUFFER_SIZE ∧
      (drain_step buf).1.head = buf.head ∧
      (drain_step buf).1.running = buf.running ∧
      bufContents (drain_step buf).1 = (bufContents buf).drop k ∧
      k ≤ MAX_LOG_ENTRY - 1 ∧
      (∀ a ∈ (drain_step buf).2.dropLast, a ≠ '\n') ∧
      (0 < (drain_step buf).1.count →
        MAX_LOG_ENTRY - 1 ≤ k ∨ (drain_step buf).2.getLast? = some '\n') := by
  obtain ⟨k, hle, hpos, hout, hcount, htail, hhead, hrun, hcont, hcap, hnln, hstop⟩ :=
    drain_loop_spec buf [] ht
  rw [← drain_step_def] at hout hcount htail hhead hrun hcont hnln hstop
  simp only [List.length_nil, List.nil_append] at hout hcap hstop
  refine ⟨k, hle, ?_, hout, hcount, htail, hhead, hrun, hcont, by omega, ?_, ?_⟩
  · intro h0
    exact hpos h0 (by decide)
  · exact hnln (by intro a ha; exact absurd ha (List.not_mem_nil a))
  · intro h0
    rcases hstop h0 with hl | hr
    · exact Or.inl (by omega)
    · exact Or.inr hr

/-- A drain step on a non-empty buffer strictly decreases `count`. -/
theorem drain_step_count_lt (buf : LoggerCircularBuffer)
    (ht : buf.tail < BUFFER_SIZE) (h0 : 0 < buf.count) :
    (drain_step buf).1.count < buf.count := by
  obtain ⟨k, hle, hpos, _, hcount, _⟩ := drain_step_spec buf ht
  have := hpos h0
  omega

/-- A drain step preserves well-formedness. -/
theorem drain_step_wf (buf : LoggerCircularBuffer) (hwf : bufWF buf) :
    bufWF (drain_step buf).1 := by
  obtain ⟨hc, ht, hh⟩ := hwf
  obtain ⟨k, hle, _, _, hcount, htail, hhead, _, _, _, _⟩ := drain_step_spec buf ht
  refine ⟨by omega, by rw [htail]; exact mod_bs_lt _, ?_⟩
  rw [hhead, hcount, htail, hh, Nat.mod_add_mod]
  congr 1
  omega

/-- With fuel at least `count`, the shutdown drain empties the buffer and
emits exactly its content. -/
theorem drainAllFuel_spec : ∀ (n : Nat) (buf : LoggerCircularBuffer),
    bufWF buf → buf.count ≤ n →
    (drainAllFuel n buf).2 = bufContents buf ∧
    (drainAllFuel n buf).1.count = 0 ∧
    (drainAllFuel n buf).1.running = buf.running := by
  intro n
  induction n with
  | zero =>
    intro buf hwf hc
    have h0 : buf.count = 0 := by omega
    refine ⟨?_, h0, rfl⟩
    rw [bufContents, h0]
    rfl
  | succ n ih =>
    intro buf hwf hcn
    by_cases h0 : 0 < buf.count
    · have heq : drainAllFuel (n + 1) buf =
          ((drainAllFuel n (drain_step buf).1).1,
           (drain_step buf).2 ++ (drainAllFuel n (drain_step buf).1).2) := by
        simp only [drainAllFuel, if_pos h0]
      obtain ⟨k, hle, hpos, hout, hcount, _, _, hrun, hcont, _, _, _⟩ :=
        drain_step_spec buf hwf.2.1
      have hwf1 := drain_step_wf buf hwf
      have hcn1 : (drain_step buf).1.count ≤ n := by
        have := hpos h0
        omega
      obtain ⟨ihout, ihcount, ihrun⟩ := ih (drain_step buf).1 hwf1 hcn1
      refine ⟨?_, ?_, ?_⟩
      · rw [heq]
        dsimp only
        rw [ihout, hout, hcont, List.take_append_drop]
      · rw [heq]
        dsimp only
        exact ihcount
      · rw [heq]
        dsimp only
        rw [ihrun, hrun]
    · have h0' : buf.count = 0 := by omega
      have heq : drainAllFuel (n + 1) buf = (buf, []) := by
        simp only [drainAllFuel, if_neg h0]
      refine ⟨?_, ?_, ?_⟩
      · rw [heq]
        dsimp only
        rw [bufContents, h0']
        rfl
      · rw [heq]
        exact h0'
      · rw [heq]

/-- A sequence of `buffer_write` calls preserves well-formedness and
appends the concatenation of the accepted byte sequences to the ring
content. -/
theorem enqueueAll_spec : ∀ (msgs : List (List Char)) (buf : LoggerCircularBuffer),
    bufWF buf →
    bufWF (enqueueAll buf msgs).1 ∧
    bufContents (enqueueAll buf msgs).1 =
      bufContents buf ++ (enqueueAll buf msgs).2 := by
  intro msgs
  induction msgs with
  | nil =>
    intro buf hwf
    exact ⟨hwf, by simp [enqueueAll]⟩
  | cons m ms ih =>
    intro buf hwf
    obtain ⟨hwf1, hcont1⟩ := buffer_write_wf buf m hwf
    obtain ⟨hwf2, hcont2⟩ := ih (buffer_write buf m).1 hwf1
    have heq : enqueueAll buf (m :: ms) =
        ((enqueueAll (buffer_write buf m).1 ms).1,
         m.take (buffer_write buf m).2.1 ++ (enqueueAll (buffer_write buf m).1 ms).2) := by
      simp only [enqueueAll]
    rw [heq]
    refine ⟨hwf2, ?_⟩
    dsimp only
    rw [hcont2, hcont1, List.append_assoc]

theorem buffer_write_signal (buf : LoggerCircularBuffer) (data : List Char) :
    (buffer_write buf data).2.2 = decide (0 < (buffer_write_loop buf data).2) := rfl

/-- The formatted length returned by `logger_format_entry` is positive
(the entry always ends in a newline). -/
theorem logger_format_entry_len_pos (ts : List Char) (level : LogLevel)
    (msg : List Char) : 0 < (logger_format_entry ts level msg).2 := by
  simp only [logger_format_entry, List.length_append, List.length_cons,
    List.length_nil]
  omega

/-- Claim C2: `buffer_write` on a buffer satisfying the ring invariant
copies exactly `min len (BUFFER_SIZE - count)` bytes into the ring
starting at `head`, advances `head` modulo `BUFFER_SIZE` and increments
`count` by that many, returns that number, never makes `count` exceed
`BUFFER_SIZE`, and signals the condition variable iff at least one byte
was written. -/
theorem C2_buffer_write (buf : LoggerCircularBuffer) (data : List Char)
    (hc : buf.count ≤ BUFFER_SIZE) (hh : buf.head < BUFFER_SIZE) :
    (buffer_write buf data).2.1 = min data.length (BUFFER_SIZE - buf.count) ∧
    (buffer_write buf data).1.count = buf.count + (buffer_write buf data).2.1 ∧
    (buffer_write buf data).1.head =
      (buf.head + (buffer_write buf data).2.1) % BUFFER_SIZE ∧
    (buffer_write buf data).1.count ≤ BUFFER_SIZE ∧
    (∀ j, j < (buffer_write buf data).2.1 →
      (buffer_write buf data).1.buffer ((buf.head + j) % BUFFER_SIZE) =
        data.getD j 'x') ∧
    ((buffer_write buf data).2.2 = true ↔ 0 < (buffer_write buf data).2.1) := by
  obtain ⟨hw, hcount, hhead, _, _, hcontent, _⟩ :=
    buffer_write_loop_spec data buf hc hh
  rw [buffer_write_fst, buffer_write_written, buffer_write_signal]
  refine ⟨hw, hcount, hhead, by omega, hcontent, ?_⟩
  exact ⟨of_decide_eq_true, decide_eq_true⟩

theorem C2_buffer_write_witness :
    bufW.count ≤ BUFFER_SIZE ∧ bufW.head < BUFFER_SIZE ∧
    (buffer_write bufW "ab".data).2.1 =
      min "ab".data.length (BUFFER_SIZE - bufW.count) ∧
    (buffer_write bufW "ab".data).1.count ≤ BUFFER_SIZE :=
  ⟨by decide, by decide,
   (C2_buffer_write bufW "ab".data (by decide) (by decide)).1,
   (C2_buffer_write bufW "ab".data (by decide) (by decide)).2.2.2.1⟩

/-- Claim C3: the predicate `count ≤ BUFFER_SIZE ∧ head < BUFFER_SIZE ∧
tail < BUFFER_SIZE` holds after `logger_init_async` and is preserved by
every `buffer_write` call and every writer-thread extraction step. -/
theorem C3_buffer_invariant (buf0 buf : LoggerCircularBuffer) (data : List Char) :
    bufInvariant (logger_init_async buf0) ∧
    (bufInvariant buf → bufInvariant (buffer_write buf data).1) ∧
    (bufInvariant buf → bufInvariant (drain_step buf).1) := by
  refine ⟨⟨Nat.zero_le _, bs_pos, bs_pos⟩, ?_, ?_⟩
  · intro hinv
    obtain ⟨hc, hh, ht⟩ := hinv
    obtain ⟨hw, hcount, hhead, htail, _, _, _⟩ :=
      buffer_write_loop_spec data buf hc hh
    rw [buffer_write_fst]
    exact ⟨by omega, by rw [hhead]; exact mod_bs_lt _, by rw [htail]; exact ht⟩
  · intro hinv
    obtain ⟨hc, hh, ht⟩ := hinv
    obtain ⟨k, hle, _, _, hcount, htail, hhead, _, _, _, _⟩ := drain_step_spec buf ht
    exact ⟨by omega, by rw [hhead]; exact hh, by rw [htail]; exact mod_bs_lt _⟩

theorem C3_buffer_invariant_witness :
    bufInvariant bufW ∧ bufInvariant (buffer_write bufW "a".data).1 :=
  ⟨⟨by decide, by decide, by decide⟩,
   (C3_buffer_invariant bufW bufW "a".data).2.1 ⟨by decide, by decide, by decide⟩⟩

/-- Claim C4: one drain step on a non-empty buffer removes a non-empty
prefix of the ring content at `tail`, advancing `tail` modulo the
capacity and decrementing `count` by the number of bytes removed; it
takes at most `MAX_LOG_ENTRY - 1` bytes, a newline appears only as the
last byte taken, and if bytes remain in the buffer then the step stopped
either at the byte cap or at a newline. -/
theorem C4_drain_line (buf : LoggerCircularBuffer) (ht : buf.tail < BUFFER_SIZE)
    (hne : 0 < buf.count) :
    (drain_step buf).2 ≠ [] ∧
    (drain_step buf).2.length ≤ MAX_LOG_ENTRY - 1 ∧
    (drain_step buf).2.length ≤ buf.count ∧
    (drain_step buf).1.count = buf.count - (drain_step buf).2.length ∧
    (drain_step buf).1.tail =
      (buf.tail + (drain_step buf).2.length) % BUFFER_SIZE ∧
    (drain_step buf).2 = (bufContents buf).take (drain_step buf).2.length ∧
    (∀ a ∈ (drain_step buf).2.dropLast, a ≠ '\n') ∧
    (0 < (drain_step buf).1.count →
      (drain_step buf).2.length = MAX_LOG_ENTRY - 1 ∨
        (drain_step buf).2.getLast? = some '\n') := by
  obtain ⟨k, hle, hpos, hout, hcount, htail, _, _, _, hk, hnln, hstop⟩ :=
    drain_step_spec buf ht
  have hkpos := hpos hne
  have hlen : (drain_step buf).2.length = k := by
    rw [hout, List.length_take]
    simp only [bufContents, List.length_map, List.length_range]
    omega
  rw [hlen]
  refine ⟨?_, by omega, hle, hcount, htail, hout, hnln, ?_⟩
  · intro hnil
    rw [hnil] at hlen
    simp only [List.length_nil] at hlen
    omega
  · intro h0
    rcases hstop h0 with hl | hr
    · exact Or.inl (by omega)
    · exact Or.inr hr

theorem C4_drain_line_witness :
    bufS.tail < BUFFER_SIZE ∧ 0 < bufS.count ∧ (drain_step bufS).2 ≠ [] :=
  ⟨by decide, by decide, (C4_drain_line bufS (by decide) (by decide)).1⟩

/-- Claim C5: starting from an empty well-formed buffer, the bytes
extracted by repeated writer drain steps are exactly the concatenation,
in call order, of the byte sequences accepted by the successive
`buffer_write` calls. -/
theorem C5_fifo_round_trip (buf : LoggerCircularBuffer) (msgs : List (List Char))
    (n : Nat) (hwf : bufWF buf) (hempty : buf.count = 0)
    (hfuel : (enqueueAll buf msgs).1.count ≤ n) :
    (drainAllFuel n (enqueueAll buf msgs).1).2 = (enqueueAll buf msgs).2 := by
  obtain ⟨hwf', hcont⟩ := enqueueAll_spec msgs buf hwf
  obtain ⟨hout, _, _⟩ := drainAllFuel_spec n (enqueueAll buf msgs).1 hwf' hfuel
  rw [hout, hcont]
  rw [show bufContents buf = [] from by rw [bufContents, hempty]; rfl]
  rw [List.nil_append]

theorem C5_fifo_round_trip_witness :
    bufWF bufW ∧ bufW.count = 0 ∧
    (enqueueAll bufW ["ab\n".data, "c\n".data]).1.count ≤ 8192 ∧
    (drainAllFuel 8192 (enqueueAll bufW ["ab\n".data, "c\n".data]).1).2 =
      (enqueueAll bufW ["ab\n".data, "c\n".data]).2 :=
  ⟨⟨by decide, by decide, by decide⟩, by decide, by decide,
   C5_fifo_round_trip bufW ["ab\n".data, "c\n".data] 8192
     ⟨by decide, by decide, by decide⟩ (by decide) (by decide)⟩

set_option maxRecDepth 100000 in
/-- Claim C1 counterexample: with the floor at DEBUG (defaults) and a
CRITICAL call — so the level is at or above the floor — a 1000-character
message makes the formatted entry reach the `MAX_LOG_ENTRY` cap and the
call produces no output at all, refuting the unconditional
"output iff L ≥ F". -/
theorem C1_counterexample :
    logger_write_log logger_init_defaults tsW LogLevel.CRITICAL
        (List.replicate 1000 'a') = (logger_init_defaults, LogEffect.none) ∧
    logger_init_defaults.min_level.toNat ≤ LogLevel.CRITICAL.toNat :=
  ⟨rfl, by decide⟩

/-- Claim C1 (amended): provided the formatted entry fits below the
`MAX_LOG_ENTRY` cap, a `logger_write_log` call produces output iff the
level is at or above the configured floor: below the floor it returns
with no side effect at all, and at or above it dispatches the formatted
entry to the buffer (async mode) or to the file (sync mode). -/
theorem C1_level_filter (lg : Logger) (ts : List Char) (level : LogLevel)
    (msg : List Char)
    (hlen : (logger_format_entry ts level msg).2 < MAX_LOG_ENTRY) :
    (level.toNat < lg.min_level.toNat →
      logger_write_log lg ts level msg = (lg, LogEffect.none)) ∧
    (lg.min_level.toNat ≤ level.toNat → lg.async_mode = true →
      logger_write_log lg ts level msg =
        ({ lg with
            circ_buf := (buffer_write lg.circ_buf (logger_format_entry ts level msg).1).1 },
         LogEffect.enqueue (logger_format_entry ts level msg).1)) ∧
    (lg.min_level.toNat ≤ level.toNat → lg.async_mode = false →
      logger_write_log lg ts level msg =
        (lg, LogEffect.fileWrite lg.file (logger_format_entry ts level msg).1)) ∧
    ((logger_write_log lg ts level msg).2 ≠ LogEffect.none ↔
      lg.min_level.toNat ≤ level.toNat) := by
  have hpos := logger_format_entry_len_pos ts level msg
  have hnd : ¬((logger_format_entry ts level msg).2 = 0 ∨
      MAX_LOG_ENTRY ≤ (logger_format_entry ts level msg).2) := by
    omega
  have hdrop : ∀ _ : level.toNat < lg.min_level.toNat,
      logger_write_log lg ts level msg = (lg, LogEffect.none) := by
    intro hlt
    simp only [logger_write_log, if_pos hlt]
  have hasyncEq : lg.min_level.toNat ≤ level.toNat → lg.async_mode = true →
      logger_write_log lg ts level msg =
        ({ lg with
            circ_buf := (buffer_write lg.circ_buf (logger_format_entry ts level msg).1).1 },
         LogEffect.enqueue (logger_format_entry ts level msg).1) := by
    intro hge ha
    have hnlt : ¬(level.toNat < lg.min_level.toNat) := by omega
    simp only [logger_write_log, if_neg hnlt, if_neg hnd, ha, if_true]
  have hsyncEq : lg.min_level.toNat ≤ level.toNat → lg.async_mode = false →
      logger_write_log lg ts level msg =
        (lg, LogEffect.fileWrite lg.file (logger_format_entry ts level msg).1) := by
    intro hge ha
    have hnlt : ¬(level.toNat < lg.min_level.toNat) := by omega
    have ha' : ¬(lg.async_mode = true) := by
      rw [ha]
      exact Bool.false_ne_true
    simp only [logger_write_log, if_neg hnlt, if_neg hnd, if_neg ha']
  refine ⟨hdrop, hasyncEq, hsyncEq, ?_, ?_⟩
  · intro hne
    by_contra hnge
    have hlt : level.toNat < lg.min_level.toNat := by omega
    have heff : (logger_write_log lg ts level msg).2 = LogEffect.none := by
      rw [hdrop hlt]
    exact hne heff
  · intro hge
    cases ha : lg.async_mode with
    | false =>
      rw [hsyncEq hge ha]
      exact fun hcontra => LogEffect.noConfusion hcontra
    | true =>
      rw [hasyncEq hge ha]
      exact fun hcontra => LogEffect.noConfusion hcontra

theorem C1_level_filter_witness :
    (logger_format_entry tsW LogLevel.INFO "hello".data).2 < MAX_LOG_ENTRY ∧
    (logger_write_log logger_init_defaults tsW LogLevel.INFO "hello".data).2 ≠
      LogEffect.none :=
  ⟨by decide,
   (C1_level_filter logger_init_defaults tsW LogLevel.INFO "hello".data
       (by decide)).2.2.2.mpr (by decide)⟩

/-- Claim C6 counterexample: with `running = false` and one undrained
byte still in the buffer, the Writer Thread's loop nevertheless exits,
refuting "it never exits while undrained bytes remain". -/
theorem C6_counterexample :
    writer_iteration bufStopped = WriterObs.exited ∧ 0 < bufStopped.count :=
  ⟨rfl, by decide⟩

/-- Claim C6 (amended): the Writer Thread's loop reaches its terminal
state exactly when it observes `running = false`; at that point it exits
even if undrained bytes remain in the buffer. -/
theorem C6_exit_iff (buf : LoggerCircularBuffer) :
    writer_iteration buf = WriterObs.exited ↔ buf.running = false := by
  unfold writer_iteration
  cases hr : buf.running with
  | false =>
    simp [hr]
  | true =>
    by_cases h0 : buf.count = 0
    · simp [hr, h0]
    · simp [hr, h0]

/-- Claim C7: the shutdown protocol clears `running` only after the
buffer has drained to empty, so every byte enqueued before shutdown is
emitted by the Writer Thread before it stops: the final state has
`count = 0` and `running = false`, and the bytes written during the
shutdown drain are exactly the buffer content at shutdown start. -/
theorem C7_shutdown_drain (buf : LoggerCircularBuffer) (hwf : bufWF buf) :
    (logger_shutdown_async buf).1.running = false ∧
    (logger_shutdown_async buf).1.count = 0 ∧
    (logger_shutdown_async buf).2 = bufContents buf := by
  obtain ⟨hout, hcount, _⟩ := drainAllFuel_spec buf.count buf hwf (Nat.le_refl _)
  exact ⟨rfl, hcount, hout⟩

theorem C7_shutdown_drain_witness :
    bufWF bufS ∧ (logger_shutdown_async bufS).1.count = 0 ∧
    (logger_shutdown_async bufS).2 = bufContents bufS :=
  ⟨⟨by decide, by decide, by decide⟩,
   (C7_shutdown_drain bufS ⟨by decide, by decide, by decide⟩).2.1,
   (C7_shutdown_drain bufS ⟨by decide, by decide, by decide⟩).2.2⟩

/-- Claim C8: for every level at or above the floor, the formatting step
truncates the stored entry to at most `MAX_LOG_ENTRY - 1` characters; a
call whose formatted length reaches `MAX_LOG_ENTRY` is dropped with no
side effect; and any entry actually written or enqueued has length
strictly below `MAX_LOG_ENTRY`. -/
theorem C8_entry_cap (lg : Logger) (ts : List Char) (level : LogLevel)
    (msg : List Char) (hge : lg.min_level.toNat ≤ level.toNat) :
    (logger_format_entry ts level msg).1.length ≤ MAX_LOG_ENTRY - 1 ∧
    (MAX_LOG_ENTRY ≤ (logger_format_entry ts level msg).2 →
      logger_write_log lg ts level msg = (lg, LogEffect.none)) ∧
    (∀ e, effectEntry (logger_write_log lg ts level msg).2 = some e →
      e.length < MAX_LOG_ENTRY) := by
  have hcap : (logger_format_entry ts level msg).1.length ≤ MAX_LOG_ENTRY - 1 := by
    simp only [logger_format_entry]
    rw [List.length_take]
    omega
  have hnlt : ¬(level.toNat < lg.min_level.toNat) := by omega
  refine ⟨hcap, ?_, ?_⟩
  · intro hover
    simp only [logger_write_log, if_neg hnlt, if_pos (Or.inr hover)]
  · intro e he
    have hM : 0 < MAX_LOG_ENTRY := by decide
    by_cases hover : (logger_format_entry ts level msg).2 = 0 ∨
        MAX_LOG_ENTRY ≤ (logger_format_entry ts level msg).2
    · simp only [logger_write_log, if_neg hnlt, if_pos hover, effectEntry] at he
      exact absurd he (Option.noConfusion)
    · cases ha : lg.async_mode with
      | false =>
        simp only [logger_write_log, if_neg hnlt, if_neg hover, ha,
          Bool.false_eq_true, if_false, effectEntry, Option.some.injEq] at he
        rw [← he]
        omega
      | true =>
        simp only [logger_write_log, if_neg hnlt, if_neg hover, ha, if_true,
          effectEntry, Option.some.injEq] at he
        rw [← he]
        omega

theorem C8_entry_cap_witness :
    logger_init_defaults.min_level.toNat ≤ LogLevel.INFO.toNat ∧
    (logger_format_entry tsW LogLevel.INFO "hello".data).1.length ≤
      MAX_LOG_ENTRY - 1 :=
  ⟨by decide,
   (C8_entry_cap logger_init_defaults tsW LogLevel.INFO "hello".data (by decide)).1⟩

/-- Claim C9 counterexample: a leveled call on the zero-initialized
logger (before any `logger_init`) writes the entry to file descriptor 0
— the zero-initialized field — rather than lazily applying the stderr
default (descriptor 2). -/
theorem C9_counterexample :
    (logger_write_log logger_zero tsW LogLevel.DEBUG "hello".data).2 =
      LogEffect.fileWrite 0
        (logger_format_entry tsW LogLevel.DEBUG "hello".data).1 ∧
    logger_zero.file ≠ LOGGER_STDERR :=
  ⟨rfl, by decide⟩

/-- Claim C9 (amended): leveled free-function calls tolerate being made
before any initialize call by operating directly on the zero-initialized
logger state — which coincides with the defaults for the floor (DEBUG)
and mode (synchronous) but uses file descriptor 0 rather than the stderr
sentinel — instead of erroring; the strict singleton accessor
(`LoggerManager::get`) raises an error when accessed before
initialization. -/
theorem C9_lazy_vs_strict (ts msg : List Char) (level : LogLevel)
    (hlen : (logger_format_entry ts level msg).2 < MAX_LOG_ENTRY) :
    logger_write_log logger_zero ts level msg =
      (logger_zero, LogEffect.fileWrite 0 (logger_format_entry ts level msg).1) ∧
    logger_zero.min_level = LogLevel.DEBUG ∧
    logger_zero.async_mode = false ∧
    logger_zero.file ≠ LOGGER_STDERR ∧
    (∃ e, LoggerManager_get LoggerInstance_uninit = Except.error e) := by
  refine ⟨?_, rfl, rfl, by decide, ⟨_, rfl⟩⟩
  have hz : logger_zero.min_level.toNat = 0 := rfl
  have hnlt : ¬(level.toNat < logger_zero.min_level.toNat) := by omega
  have hpos := logger_format_entry_len_pos ts level msg
  have hnd : ¬((logger_format_entry ts level msg).2 = 0 ∨
      MAX_LOG_ENTRY ≤ (logger_format_entry ts level msg).2) := by
    omega
  have ha : ¬(logger_zero.async_mode = true) := by decide
  simp only [logger_write_log, if_neg hnlt, if_neg hnd, if_neg ha]
  rfl

theorem C9_lazy_vs_strict_witness :
    (logger_format_entry tsW LogLevel.WARN "hi".data).2 < MAX_LOG_ENTRY ∧
    logger_zero.async_mode = false :=
  ⟨by decide, (C9_lazy_vs_strict tsW "hi".data LogLevel.WARN (by decide)).2.2.1⟩

/-- Claim C10 counterexample: on an async-mode logger, `logger_deinit`
also mutates the circular buffer (its `running` flag is cleared),
refuting "it modifies only the file field and the async_mode flag". -/
theorem C10_counterexample :
    (logger_deinit lgAsync).1.circ_buf.running = false ∧
    lgAsync.circ_buf.running = true :=
  ⟨rfl, rfl⟩

/-- Claim C10 (amended): `logger_deinit` leaves the configured minimum
level unchanged; it modifies only the file field (reset to the stderr
sentinel when it was a real file), the async_mode flag (reset to false),
and — when async mode was active — the circular buffer state (shut
down); in synchronous mode the rest of the logger state is untouched. -/
theorem C10_deinit_frame (lg : Logger) :
    (logger_deinit lg).1.min_level = lg.min_level ∧
    (logger_deinit lg).1.async_mode = false ∧
    (logger_deinit lg).1.file =
      (if LOGGER_STDERR < lg.file then LOGGER_STDERR else lg.file) ∧
    (lg.async_mode = true →
      (logger_deinit lg).1.circ_buf = (logger_shutdown_async lg.circ_buf).1) ∧
    (lg.async_mode = false →
      (logger_deinit lg).1 =
        { lg with
            async_mode := false
            file := if LOGGER_STDERR < lg.file then LOGGER_STDERR else lg.file }) := by
  refine ⟨rfl, rfl, rfl, ?_, ?_⟩
  · intro h
    simp only [logger_deinit, h, if_true]
  · intro h
    simp only [logger_deinit, h, Bool.false_eq_true, if_false]

theorem C10_deinit_frame_witness :
    lgSync.async_mode = false ∧
    (logger_deinit lgSync).1 =
      { lgSync with
          async_mode := false
          file := if LOGGER_STDERR < lgSync.file then LOGGER_STDERR else lgSync.file } :=
  ⟨rfl, (C10_deinit_frame lgSync).2.2.2.2 rfl⟩

end Minispdlog
